import Mathlib

/-!
Verification of the VAST (Verilog AST) construction and emission library
(xls/codegen/vast.cc). Expressions, data types, statements and the
clocked-register synthesis pattern (AlwaysFlop) are embedded as Lean
inductive types, and each Emit method is translated into a function
returning `Option String`: `none` models a fatal invariant violation
(an XLS_CHECK failure, which aborts the process), `some s` models the
successfully emitted text. StatusOr-returning functions are translated
as `Option (Except String A)`: the outer `Option` again models process
abort, `Except.error` models the recoverable typed failure carried by
absl::Status.
-/

namespace Vast

/-- Modelled from the spec: an arbitrary-precision literal bit pattern
(the xls `Bits` class, which is not under src/): a bit count together
with its unsigned integer value. -/
structure Bits where
  bit_count : Nat
  value : Nat
deriving DecidableEq, Repr

/-- Modelled from the spec: `Bits::ToUint64` (not under src/) resolves a
literal bit pattern to its unsigned integer value. -/
def Bits.ToUint64 (b : Bits) : Nat := b.value

/-- Modelled from the spec: `Bits::ToInt64` (not under src/), the
two's-complement signed reading of the bit pattern. -/
def Bits.ToInt64 (b : Bits) : Int :=
  if b.value < 2 ^ (b.bit_count - 1) then (b.value : Int)
  else (b.value : Int) - 2 ^ b.bit_count

/-- Modelled from the spec: `Bits::FitsInInt64` (not under src/), whether
the signed reading fits in a 64-bit signed machine integer. -/
def Bits.FitsInInt64 (b : Bits) : Bool :=
  decide (-(2 ^ 63) ≤ b.ToInt64 ∧ b.ToInt64 < 2 ^ 63)

/-- Modelled from the spec: `Bits::ToRawDigits` with leading zeros
(not under src/): the digits of the value in the given base, left-padded
with zero digits to `pad` digits in total. -/
def rawDigits (base pad value : Nat) : String :=
  let ds := Nat.toDigits base value
  ⟨List.replicate (pad - ds.length) (Char.ofNat 48) ++ ds⟩

/-- Modelled from the spec: the literal format preference enumeration
(default, decimal, binary, hex). -/
inductive FormatPreference where
  | kDefault
  | kDecimal
  | kBinary
  | kHex
deriving DecidableEq, Repr

/-- Port direction (vast.h). -/
inductive Direction where
  | kInput
  | kOutput
deriving DecidableEq, Repr

/-- Declaration kind (vast.h). -/
inductive DataKind where
  | kReg
  | kWire
  | kLogic
deriving DecidableEq, Repr

mutual

/-- Expression AST nodes of vast.cc relevant here: literal, reference to a
declaration, unary operator, binary-infix operator, slice and index.
Unary and BinaryInfix carry their precedence value, exactly as the source
constructors take it as an argument. -/
inductive Expression where
  | literal (bits : Bits) (format : FormatPreference) (emit_bit_count : Bool)
  | logicRef (ref : Def)
  | unary (op : String) (arg : Expression) (prec : Nat)
  | binaryInfix (lhs : Expression) (op : String) (rhs : Expression) (prec : Nat)
  | slice (subject : Expression) (hi : Expression) (lo : Expression)
  | index (subject : Expression) (idx : Expression)

/-- A declaration (vast.h Def): name, kind (reg/wire/logic), data type. -/
inductive Def where
  | mk (name : String) (kind : DataKind) (type : DataType)

/-- DataType (vast.h): an optional width expression (absent means a scalar,
single-bit signal), a signedness flag, and packed dimensions. -/
inductive DataType where
  | mk (width : Option Expression) (is_signed : Bool) (packed_dims : List Expression)

end

def Def.name : Def → String
  | .mk n _ _ => n

def Def.kind : Def → DataKind
  | .mk _ k _ => k

def Def.data_type : Def → DataType
  | .mk _ _ t => t

def Def.GetName (d : Def) : String := d.name

def DataType.width : DataType → Option Expression
  | .mk w _ _ => w

def DataType.is_signed : DataType → Bool
  | .mk _ s _ => s

def DataType.packed_dims : DataType → List Expression
  | .mk _ _ d => d

/-- Modelled from the spec: the maximum expression precedence
(`Expression::kMaxPrecedence` in vast.h, not under src/); primary
expressions such as literals and references are highest. -/
def kMaxPrecedence : Nat := 13

/-- The binary subtraction precedence used by WidthToLimit (vast.cc). -/
def kBinarySubPrecedence : Nat := 9

/-- Each node's precedence: Unary and BinaryInfix report the value they
were constructed with, every other variant reports the maximum
(modelled from the spec: vast.h gives primaries the maximum precedence). -/
def Expression.precedence : Expression → Nat
  | .unary _ _ p => p
  | .binaryInfix _ _ _ p => p
  | _ => kMaxPrecedence

def Expression.IsLiteral : Expression → Bool
  | .literal .. => true
  | _ => false

def Expression.IsUnary : Expression → Bool
  | .unary .. => true
  | _ => false

/-- Modelled from the spec for the scalar test used by Slice/Index: a
reference is scalar when its declared DataType has no width expression and
no packed dimensions; no other expression variant is scalar. -/
def Expression.IsScalar : Expression → Bool
  | .logicRef (.mk _ _ (.mk none _ [])) => true
  | _ => false

/-- Literal::IsLiteralWithValue (vast.cc): false when the bits do not fit a
signed 64-bit integer, else compares the signed reading with the target.
Non-literal expressions answer false (base-class default in vast.h). -/
def Expression.IsLiteralWithValue (e : Expression) (target : Int) : Bool :=
  match e with
  | .literal b _ _ => if b.FitsInInt64 then b.ToInt64 == target else false
  | _ => false

/-- `AsLiteralOrDie()->bits().ToUint64()` for expressions already known to
be literals; zero on non-literals, which all callers below guard against. -/
def Expression.AsLiteralToUint64 : Expression → Nat
  | .literal b _ _ => b.ToUint64
  | _ => 0

/-- ParenWrap (vast.cc): the string wrapped in parentheses. -/
def ParenWrap (s : String) : String := "(" ++ s ++ ")"

/-- Emission of expressions, translated from the Emit methods of vast.cc.
`none` models an XLS_CHECK failure (process abort). -/
def Expression.Emit : Expression → Option String
  | .literal b fmt ebc =>
    match fmt with
    | .kDefault =>
      if b.bit_count ≤ 32 then some (toString b.value) else none
    | .kDecimal =>
      some ((if ebc then toString b.bit_count ++ "\x27d" else "") ++ toString b.value)
    | .kBinary =>
      some (toString b.bit_count ++ "\x27b" ++ rawDigits 2 b.bit_count b.value)
    | .kHex =>
      some (toString b.bit_count ++ "\x27h" ++ rawDigits 16 ((b.bit_count + 3) / 4) b.value)
  | .logicRef (.mk n _ _) => some n
  | .unary op arg p =>
    (arg.Emit).map fun s =>
      op ++ (if arg.precedence < p || arg.IsUnary then ParenWrap s else s)
  | .binaryInfix lhs op rhs p =>
    (lhs.Emit).bind fun ls =>
    (rhs.Emit).map fun rs =>
      (if lhs.precedence < p then ParenWrap ls else ls) ++ " " ++ op ++ " " ++
        (if rhs.precedence ≤ p then ParenWrap rs else rs)
  | .slice subj hi lo =>
    if subj.IsScalar then
      if hi.IsLiteralWithValue 0 && lo.IsLiteralWithValue 0 then subj.Emit else none
    else
      (subj.Emit).bind fun s =>
      (hi.Emit).bind fun h =>
      (lo.Emit).map fun l => s ++ "[" ++ h ++ ":" ++ l ++ "]"
  | .index subj idx =>
    if subj.IsScalar then
      if idx.IsLiteralWithValue 0 then subj.Emit else none
    else
      (subj.Emit).bind fun s =>
      (idx.Emit).map fun i => s ++ "[" ++ i ++ "]"

/-- WidthToLimit (vast.cc): a literal width is emitted as its unsigned
64-bit value minus one (computed in uint64 arithmetic); a non-literal width
becomes a synthesized subtraction node, emitted at the binary subtraction
precedence. -/
def WidthToLimit (expr : Expression) : Option String :=
  match expr with
  | .literal b _ _ => some (toString ((b.ToUint64 + (2 ^ 64 - 1)) % 2 ^ 64))
  | e =>
    (Expression.binaryInfix e "-" (.literal ⟨32, 1⟩ .kDefault false)
      kBinarySubPrecedence).Emit

/-- WidthToRangeString (vast.cc): empty for an absent width, otherwise the
range suffix with a leading space. -/
def WidthToRangeString : Option Expression → Option String
  | none => some ""
  | some w => (WidthToLimit w).map fun s => " [" ++ s ++ ":0]"

/-- The loop body of PackedDimsToRangeString (vast.cc). -/
def packedDimsLoop : List Expression → Option String
  | [] => some ""
  | d :: rest =>
    (WidthToLimit d).bind fun l =>
    (packedDimsLoop rest).map fun r => "[" ++ l ++ ":0]" ++ r

/-- PackedDimsToRangeString (vast.cc). -/
def PackedDimsToRangeString (dims : List Expression) : Option String :=
  packedDimsLoop dims

/-- DataType::Emit (vast.cc): signed qualifier, width range, packed dims. -/
def DataType.Emit (t : DataType) : Option String :=
  (WidthToRangeString t.width).bind fun wr =>
  (PackedDimsToRangeString t.packed_dims).map fun pd =>
    (if t.is_signed then " signed" else "") ++ wr ++ pd

/-- DataType::WidthAsInt64 (vast.cc): no width resolves to 1; a non-literal
width is the typed FailedPrecondition failure; a literal resolves to its
unsigned value. -/
def DataType.WidthAsInt64 (t : DataType) : Option (Except String Nat) :=
  match t.width with
  | none => some (Except.ok 1)
  | some w =>
    if w.IsLiteral then some (Except.ok w.AsLiteralToUint64)
    else (w.Emit).map fun s => Except.error ("Width is not a literal: " ++ s)

/-- The packed-dimension loop of DataType::FlatBitCountAsInt64 (vast.cc). -/
def flatBitCountLoop (dims : List Expression) (bit_count : Nat) :
    Option (Except String Nat) :=
  match dims with
  | [] => some (Except.ok bit_count)
  | d :: rest =>
    if d.IsLiteral then flatBitCountLoop rest (bit_count * d.AsLiteralToUint64)
    else (d.Emit).map fun s => Except.error ("Dimension is not a literal:" ++ s)

/-- DataType::FlatBitCountAsInt64 (vast.cc). -/
def DataType.FlatBitCountAsInt64 (t : DataType) : Option (Except String Nat) :=
  match t.WidthAsInt64 with
  | none => none
  | some (Except.error e) => some (Except.error e)
  | some (Except.ok bc) => flatBitCountLoop t.packed_dims bc

/-- Modelled from the spec: a Def's flat bit count is that of its data
type (the delegating accessor lives in vast.h, not under src/). -/
def Def.FlatBitCountAsInt64 (d : Def) : Option (Except String Nat) :=
  d.data_type.FlatBitCountAsInt64

/-- Port (vast.h): a direction and the wire declaration that names it. -/
structure Port where
  direction : Direction
  wire : Def

/-- The external port descriptor (PortProto). -/
structure PortProto where
  direction : Direction
  name : String
  width : Nat
deriving DecidableEq, Repr

/-- Port::ToProto (vast.cc): direction and name always transfer; the width
comes from FlatBitCountAsInt64 and its typed failure propagates. -/
def Port.ToProto (p : Port) : Option (Except String PortProto) :=
  match p.wire.FlatBitCountAsInt64 with
  | none => none
  | some (Except.error e) => some (Except.error e)
  | some (Except.ok w) =>
    some (Except.ok { direction := p.direction, name := p.wire.GetName, width := w })

mutual

/-- Procedural statements relevant here (vast.cc): non-blocking assignment
and the Conditional if/else-if/else chain. -/
inductive Statement where
  | nonblocking (lhs rhs : Expression)
  | conditional (condition : Expression) (consequent : StatementList)
      (alternates : AlternateList)

/-- An ordered statement sequence (a StatementBlock's contents). -/
inductive StatementList where
  | nil
  | cons (s : Statement) (rest : StatementList)

/-- A Conditional's alternates: an optional condition (absent for the
unconditional else) with its statement block, in insertion order. -/
inductive AlternateList where
  | nil
  | cons (condition : Option Expression) (blk : StatementList) (rest : AlternateList)

end

def StatementList.ofList : List Statement → StatementList
  | [] => .nil
  | s :: rest => .cons s (ofList rest)

/-- Modelled from the spec: Indent (xls/common/indent, not under src/)
prefixes every line of the text with two spaces. -/
def Indent (s : String) : String :=
  String.intercalate "\n" ((s.splitOn "\n").map fun line => "  " ++ line)

mutual

/-- Emission of statements (vast.cc NonblockingAssignment::Emit and
Conditional::Emit). -/
def Statement.Emit : Statement → Option String
  | .nonblocking lhs rhs =>
    (lhs.Emit).bind fun l =>
    (rhs.Emit).map fun r => l ++ " <= " ++ r ++ ";"
  | .conditional cond cons alts =>
    (cond.Emit).bind fun c =>
    (StatementBlockEmit cons).bind fun cs =>
    (AlternateList.emitChain alts).map fun a => "if (" ++ c ++ ") " ++ cs ++ a

/-- StatementBlock::Emit (vast.cc): an empty block is the begin-end marker,
otherwise the statements are joined on their own lines and indented. -/
def StatementBlockEmit : StatementList → Option String
  | .nil => some "begin end"
  | .cons s rest =>
    (s.Emit).bind fun hd =>
    (StatementList.emitLines rest).map fun tl =>
      "begin\n" ++ Indent (String.intercalate "\n" (hd :: tl)) ++ "\nend"

def StatementList.emitLines : StatementList → Option (List String)
  | .nil => some []
  | .cons s rest =>
    (s.Emit).bind fun hd =>
    (StatementList.emitLines rest).map fun tl => hd :: tl

/-- The alternate loop of Conditional::Emit (vast.cc): each alternate adds
an else keyword, an optional condition, and its block. -/
def AlternateList.emitChain : AlternateList → Option String
  | .nil => some ""
  | .cons cond blk rest =>
    (match cond with
     | some c => (c.Emit).map fun s => "if (" ++ s ++ ") "
     | none => some "").bind fun condStr =>
    (StatementBlockEmit blk).bind fun b =>
    (AlternateList.emitChain rest).map fun r => " else " ++ condStr ++ b ++ r

end

/-- Conditional (vast.cc): the mandatory condition and consequent plus the
alternates grown by AddAlternate. Statement blocks are kept as lists. -/
structure Conditional where
  condition : Expression
  consequent : List Statement
  alternates : List (Option Expression × List Statement)

/-- Conditional::Conditional (vast.cc): a fresh conditional has an empty
consequent block and no alternates. -/
def Conditional.create (condition : Expression) : Conditional :=
  { condition := condition, consequent := [], alternates := [] }

/-- Conditional::AddAlternate (vast.cc): the XLS_CHECK demands that the
alternate list is empty or that its last entry still has a condition;
otherwise the process aborts (`none`). On success a fresh empty block is
appended with the given (possibly absent) condition. -/
def Conditional.AddAlternate (c : Conditional) (condition : Option Expression) :
    Option Conditional :=
  match c.alternates.getLast? with
  | some (none, _) => none
  | _ => some { c with alternates := c.alternates ++ [(condition, [])] }

def altsToAlternateList : List (Option Expression × List Statement) → AlternateList
  | [] => .nil
  | (c, b) :: rest => .cons c (.ofList b) (altsToAlternateList rest)

def Conditional.toStatement (c : Conditional) : Statement :=
  .conditional c.condition (.ofList c.consequent) (altsToAlternateList c.alternates)

/-- Conditional::Emit (vast.cc). -/
def Conditional.Emit (c : Conditional) : Option String :=
  c.toStatement.Emit

/-- The Reset descriptor (vast.h): signal, asynchronous flag, active-low
flag; passed in verbatim from the caller. -/
structure Reset where
  signal : Expression
  asynchronous : Bool
  active_low : Bool

/-- Modelled from the spec: `VerilogFile::LogicalNot` (vast.h, not under
src/) builds a unary negation at the (maximal) unary precedence. -/
def kUnaryPrecedence : Nat := 12

/-- The reset condition computed by the AlwaysFlop constructor (vast.cc):
the reset signal, logically negated when the reset is active-low. -/
def rstCondition (r : Reset) : Expression :=
  if r.active_low then .unary "!" r.signal kUnaryPrecedence else r.signal

/-- AlwaysFlop (vast.cc): the clock, the optional reset descriptor, and the
two statement blocks the constructor wires up. `reset_block = none` models
the null reset block pointer of the no-reset configuration. -/
structure AlwaysFlop where
  clk : Expression
  rst : Option Reset
  reset_block : Option (List Statement)
  assignment_block : List Statement

/-- AlwaysFlop::AlwaysFlop (vast.cc): with a reset descriptor the top block
holds a conditional on the reset condition whose consequent is the reset
block and whose unconditional alternate is the assignment block; without
one there is no reset block and the assignment block is the top block. -/
def AlwaysFlop.create (clk : Expression) (rst : Option Reset) : AlwaysFlop :=
  match rst with
  | some r =>
    { clk := clk, rst := some r, reset_block := some [], assignment_block := [] }
  | none =>
    { clk := clk, rst := none, reset_block := none, assignment_block := [] }

/-- The top statement block of an AlwaysFlop as assembled by its
constructor (vast.cc): the reset conditional wrapping both blocks when a
reset is present, the bare assignment block otherwise. -/
def AlwaysFlop.topBlock (f : AlwaysFlop) : StatementList :=
  match f.rst, f.reset_block with
  | some r, some rb =>
    .cons (Statement.conditional (rstCondition r) (.ofList rb)
      (.cons none (.ofList f.assignment_block) .nil)) .nil
  | _, _ => .ofList f.assignment_block

/-- AlwaysFlop::AddRegister (vast.cc): a non-null reset value demands a
reset block (XLS_CHECK, `none` on violation) and appends the reset
assignment there; the next-value assignment is always appended to the
assignment block. -/
def AlwaysFlop.AddRegister (f : AlwaysFlop) (reg reg_next : Expression)
    (reset_value : Option Expression) : Option AlwaysFlop :=
  match reset_value with
  | some rv =>
    match f.reset_block with
    | none => none
    | some rb =>
      some { f with
        reset_block := some (rb ++ [Statement.nonblocking reg rv]),
        assignment_block := f.assignment_block ++ [Statement.nonblocking reg reg_next] }
  | none =>
    some { f with
      assignment_block := f.assignment_block ++ [Statement.nonblocking reg reg_next] }

/-- The sensitivity list built by AlwaysFlop::Emit (vast.cc): always the
clock's posedge, plus the reset signal's edge when the reset is present
and asynchronous, negedge exactly when it is active-low. -/
def AlwaysFlop.sensitivityList (f : AlwaysFlop) : Option String :=
  (f.clk.Emit).bind fun c =>
  match f.rst with
  | some r =>
    if r.asynchronous then
      (r.signal.Emit).map fun s =>
        "posedge " ++ c ++ " or " ++
          (if r.active_low then "negedge" else "posedge") ++ " " ++ s
    else some ("posedge " ++ c)
  | none => some ("posedge " ++ c)

/-- AlwaysFlop::Emit (vast.cc). -/
def AlwaysFlop.Emit (f : AlwaysFlop) : Option String :=
  (f.sensitivityList).bind fun sens =>
  (StatementBlockEmit f.topBlock).map fun top =>
    "always @ (" ++ sens ++ ") " ++ top

/-! ### Helper constructions for concrete witnesses -/

/-- A one-bit (scalar) wire reference with the given name. -/
def scalarRef (n : String) : Expression :=
  .logicRef (.mk n .kWire (.mk none false []))

/-- An eight-bit wire reference with the given name. -/
def byteRef (n : String) : Expression :=
  .logicRef (.mk n .kWire (.mk (some (.literal ⟨32, 8⟩ .kDefault false)) false []))

/-! ### Claim theorems -/

/-- Claim C1: for every binary-infix expression node, Emit parenthesizes the
left operand iff its precedence is strictly below the operator's, and the
right operand iff its precedence is below or equal. -/
theorem binaryInfix_emit_precedence_wrapping
    (l r : Expression) (op : String) (p : Nat) (ls rs : String)
    (hl : l.Emit = some ls) (hr : r.Emit = some rs) :
    (Expression.binaryInfix l op r p).Emit =
      some ((if l.precedence < p then ParenWrap ls else ls) ++ " " ++ op ++ " " ++
            (if r.precedence ≤ p then ParenWrap rs else rs)) := by
  simp [Expression.Emit, hl, hr]

/-- Witness for C1: `a - b - (c - d)` — with equal precedences the left
subtraction is not wrapped, the right one is. -/
theorem binaryInfix_emit_precedence_wrapping_witness :
    (Expression.binaryInfix
        (.binaryInfix (scalarRef "a") "-" (scalarRef "b") 9) "-"
        (.binaryInfix (scalarRef "c") "-" (scalarRef "d") 9) 9).Emit =
      some "a - b - (c - d)" := by
  have h := binaryInfix_emit_precedence_wrapping
    (.binaryInfix (scalarRef "a") "-" (scalarRef "b") 9)
    (.binaryInfix (scalarRef "c") "-" (scalarRef "d") 9)
    "-" 9 "a - b" "c - d" rfl rfl
  simpa using h

/-- Claim C6: Emit of a unary expression parenthesizes the operand iff the
operand's precedence is strictly lower than the node's or the operand is
itself unary; in particular a nested unary is always parenthesized. -/
theorem unary_emit_wrapping
    (op : String) (arg : Expression) (p : Nat) (s : String)
    (h : arg.Emit = some s) :
    (Expression.unary op arg p).Emit =
      some (op ++ (if arg.precedence < p || arg.IsUnary then ParenWrap s else s))
    ∧ (∀ op2 x p2, arg = .unary op2 x p2 →
        (Expression.unary op arg p).Emit = some (op ++ ParenWrap s)) := by
  have hmain : (Expression.unary op arg p).Emit =
      some (op ++ (if arg.precedence < p || arg.IsUnary then ParenWrap s else s)) := by
    simp [Expression.Emit, h]
  refine ⟨hmain, ?_⟩
  intro op2 x p2 harg
  rw [hmain, harg]
  simp [Expression.IsUnary]

/-- Witness for C6: double negation of a reference renders as the claim's
example text, with the inner unary parenthesized. -/
theorem unary_emit_wrapping_witness :
    (Expression.unary "-" (.unary "-" (scalarRef "x") 12) 12).Emit =
      some "-(-x)" := by
  have h := (unary_emit_wrapping "-" (.unary "-" (scalarRef "x") 12) 12 "-x"
    rfl).2 "-" (scalarRef "x") 12 rfl
  simpa using h

/-- Claim C7: a default-format literal of width at most 32 renders as a bare
decimal numeral with no width or radix marker; a wider one is a fatal abort
(`none`), not a recoverable failure. -/
theorem literal_default_format_emit (b : Bits) (ebc : Bool) :
    (b.bit_count ≤ 32 →
      (Expression.literal b .kDefault ebc).Emit = some (toString b.value))
    ∧ (32 < b.bit_count →
      (Expression.literal b .kDefault ebc).Emit = none) := by
  constructor
  · intro h
    simp [Expression.Emit, h]
  · intro h
    simp [Expression.Emit, Nat.not_le.mpr h]

/-- Witness for C7: an 8-bit default literal emits the bare numeral, a
33-bit one aborts. -/
theorem literal_default_format_emit_witness :
    (Expression.literal ⟨8, 255⟩ .kDefault false).Emit = some "255"
    ∧ (Expression.literal ⟨33, 0⟩ .kDefault false).Emit = none := by
  constructor
  · have h := (literal_default_format_emit ⟨8, 255⟩ false).1 (by decide)
    simpa using h
  · have h := (literal_default_format_emit ⟨33, 0⟩ false).2 (by decide)
    simpa using h

/-- A well-formed literal with a non-zero value never passes the
IsLiteralWithValue-zero test: its signed reading is non-zero. -/
lemma isLiteralWithValue_zero_of_ne (b : Bits) (f : FormatPreference) (e : Bool)
    (hwf : b.value < 2 ^ b.bit_count) (hnz : b.value ≠ 0) :
    (Expression.literal b f e).IsLiteralWithValue 0 = false := by
  have hint : b.ToInt64 ≠ 0 := by
    unfold Bits.ToInt64
    split
    · exact_mod_cast hnz
    · intro hc
      have : (b.value : Int) = 2 ^ b.bit_count := by omega
      have hlt : (b.value : Int) < 2 ^ b.bit_count := by exact_mod_cast hwf
      omega
  simp only [Expression.IsLiteralWithValue]
  split
  · simpa using hint
  · rfl

/-- Claim C3: with a scalar subject, Slice and Index emit the bare subject
when every bound is the literal 0, and abort (fatal invariant violation,
`none`) when any bound is a literal other than 0. -/
theorem scalar_subject_slice_index_emit
    (subj hi lo idx : Expression) (hs : subj.IsScalar = true) :
    (hi.IsLiteralWithValue 0 = true → lo.IsLiteralWithValue 0 = true →
      (Expression.slice subj hi lo).Emit = subj.Emit)
    ∧ (idx.IsLiteralWithValue 0 = true →
      (Expression.index subj idx).Emit = subj.Emit)
    ∧ (∀ b f e, hi = .literal b f e → b.value < 2 ^ b.bit_count → b.value ≠ 0 →
      (Expression.slice subj hi lo).Emit = none)
    ∧ (∀ b f e, lo = .literal b f e → b.value < 2 ^ b.bit_count → b.value ≠ 0 →
      (Expression.slice subj hi lo).Emit = none)
    ∧ (∀ b f e, idx = .literal b f e → b.value < 2 ^ b.bit_count → b.value ≠ 0 →
      (Expression.index subj idx).Emit = none) := by
  refine ⟨?_, ?_, ?_, ?_, ?_⟩
  · intro h1 h2
    simp [Expression.Emit, hs, h1, h2]
  · intro h1
    simp [Expression.Emit, hs, h1]
  · intro b f e heq hwf hnz
    have := isLiteralWithValue_zero_of_ne b f e hwf hnz
    simp [Expression.Emit, hs, heq, this]
  · intro b f e heq hwf hnz
    have := isLiteralWithValue_zero_of_ne b f e hwf hnz
    simp [Expression.Emit, hs, heq, this]
  · intro b f e heq hwf hnz
    have := isLiteralWithValue_zero_of_ne b f e hwf hnz
    simp [Expression.Emit, hs, heq, this]

/-- Witness for C3: slicing a scalar `q` at [0:0] emits `q` with no
brackets; indexing it at the literal 1 aborts. -/
theorem scalar_subject_slice_index_emit_witness :
    (Expression.slice (scalarRef "q") (.literal ⟨32, 0⟩ .kDefault false)
        (.literal ⟨32, 0⟩ .kDefault false)).Emit = some "q"
    ∧ (Expression.index (scalarRef "q") (.literal ⟨32, 1⟩ .kDefault false)).Emit
        = none := by
  have h := scalar_subject_slice_index_emit (scalarRef "q")
    (.literal ⟨32, 0⟩ .kDefault false) (.literal ⟨32, 0⟩ .kDefault false)
    (.literal ⟨32, 1⟩ .kDefault false) rfl
  constructor
  · have h1 := h.1 (by decide) (by decide)
    simpa using h1
  · exact h.2.2.2.2 ⟨32, 1⟩ .kDefault false rfl (by norm_num) (by decide)

/-- Claim C10: a literal width is rendered as its unsigned 64-bit value
minus one in wrapping arithmetic, with no positivity check, so a literal
width of 0 yields the wrapped-around range upper bound 2^64 - 1 instead of
failing or aborting. -/
theorem widthToLimit_zero_wraps (b : Bits) (f : FormatPreference) (e : Bool)
    (hz : b.value = 0) :
    WidthToLimit (.literal b f e) = some "18446744073709551615"
    ∧ (DataType.mk (some (.literal b f e)) false []).Emit =
        some " [18446744073709551615:0]"
    ∧ (∀ b2 : Bits, WidthToLimit (.literal b2 f e) =
        some (toString ((b2.ToUint64 + (2 ^ 64 - 1)) % 2 ^ 64))) := by
  have hlim : WidthToLimit (.literal b f e) = some "18446744073709551615" := by
    unfold WidthToLimit
    simp only [Bits.ToUint64, hz]
    rfl
  refine ⟨hlim, ?_, fun b2 => rfl⟩
  simp [DataType.Emit, DataType.width, DataType.is_signed, DataType.packed_dims,
    WidthToRangeString, PackedDimsToRangeString, packedDimsLoop, hlim]

/-- Witness for C10: the degenerate zero-width data type concretely emits
the wrapped-around range. -/
theorem widthToLimit_zero_wraps_witness :
    (DataType.mk (some (.literal ⟨32, 0⟩ .kDefault false)) false []).Emit =
      some " [18446744073709551615:0]" :=
  (widthToLimit_zero_wraps ⟨32, 0⟩ .kDefault false rfl).2.1

/-- Claim C4: the emitted sensitivity list is exactly the clock's posedge
when there is no reset or the reset is synchronous; with an asynchronous
reset it additionally carries the reset signal behind negedge iff the reset
is active-low, posedge otherwise; Emit wraps it as an always block. -/
theorem alwaysFlop_sensitivity_list (f : AlwaysFlop) (c : String)
    (hc : f.clk.Emit = some c) :
    (f.rst = none → f.sensitivityList = some ("posedge " ++ c))
    ∧ (∀ r, f.rst = some r → r.asynchronous = false →
        f.sensitivityList = some ("posedge " ++ c))
    ∧ (∀ r s, f.rst = some r → r.asynchronous = true → r.signal.Emit = some s →
        f.sensitivityList = some ("posedge " ++ c ++ " or " ++
          (if r.active_low then "negedge" else "posedge") ++ " " ++ s))
    ∧ (∀ sens top, f.sensitivityList = some sens →
        StatementBlockEmit f.topBlock = some top →
        f.Emit = some ("always @ (" ++ sens ++ ") " ++ top)) := by
  refine ⟨?_, ?_, ?_, ?_⟩
  · intro h
    simp [AlwaysFlop.sensitivityList, hc, h]
  · intro r h hasync
    simp [AlwaysFlop.sensitivityList, hc, h, hasync]
  · intro r s h hasync hs
    simp [AlwaysFlop.sensitivityList, hc, h, hasync, hs]
  · intro sens top hsens htop
    simp [AlwaysFlop.Emit, hsens, htop]

/-- Witness for C4: clock `clk` with an active-low asynchronous reset on
`rst_n` yields exactly `posedge clk or negedge rst_n`; the same clock with
a synchronous reset yields only `posedge clk`. -/
theorem alwaysFlop_sensitivity_list_witness :
    (AlwaysFlop.create (scalarRef "clk")
        (some ⟨scalarRef "rst_n", true, true⟩)).sensitivityList =
      some "posedge clk or negedge rst_n"
    ∧ (AlwaysFlop.create (scalarRef "clk")
        (some ⟨scalarRef "rst", false, false⟩)).sensitivityList =
      some "posedge clk" := by
  constructor
  · have h := (alwaysFlop_sensitivity_list
      (AlwaysFlop.create (scalarRef "clk") (some ⟨scalarRef "rst_n", true, true⟩))
      "clk" rfl).2.2.1 ⟨scalarRef "rst_n", true, true⟩ "rst_n" rfl rfl rfl
    simpa using h
  · have h := (alwaysFlop_sensitivity_list
      (AlwaysFlop.create (scalarRef "clk") (some ⟨scalarRef "rst", false, false⟩))
      "clk" rfl).2.1 ⟨scalarRef "rst", false, false⟩ rfl rfl
    simpa using h

/-- Claim C5: AddRegister with a reset value appends the reset assignment
to the reset block and the next-value assignment to the assignment block;
with no reset value it only appends the next-value assignment; a reset
value on a flop built without a reset descriptor is a fatal abort, and the
constructor creates the reset block exactly when a descriptor is given. -/
theorem alwaysFlop_addRegister_behavior
    (f : AlwaysFlop) (reg nxt rv : Expression) :
    (∀ rb, f.reset_block = some rb →
      f.AddRegister reg nxt (some rv) = some { f with
        reset_block := some (rb ++ [Statement.nonblocking reg rv]),
        assignment_block := f.assignment_block ++ [Statement.nonblocking reg nxt] })
    ∧ (f.AddRegister reg nxt none = some { f with
        assignment_block := f.assignment_block ++ [Statement.nonblocking reg nxt] })
    ∧ (f.reset_block = none → f.AddRegister reg nxt (some rv) = none)
    ∧ (∀ clk, (AlwaysFlop.create clk none).reset_block = none)
    ∧ (∀ clk r, (AlwaysFlop.create clk (some r)).reset_block = some []) := by
  refine ⟨?_, ?_, ?_, fun clk => rfl, fun clk r => rfl⟩
  · intro rb hrb
    simp [AlwaysFlop.AddRegister, hrb]
  · rfl
  · intro hnone
    simp [AlwaysFlop.AddRegister, hnone]

/-- Witness for C5: on a no-reset flop, adding register `q` without a reset
value appends exactly one non-blocking assignment, and supplying a reset
value aborts. -/
theorem alwaysFlop_addRegister_behavior_witness :
    (AlwaysFlop.create (scalarRef "clk") none).AddRegister (scalarRef "q")
        (scalarRef "q_next") none =
      some { clk := scalarRef "clk", rst := none, reset_block := none,
             assignment_block :=
               [Statement.nonblocking (scalarRef "q") (scalarRef "q_next")] }
    ∧ (AlwaysFlop.create (scalarRef "clk") none).AddRegister (scalarRef "q")
        (scalarRef "q_next") (some (.literal ⟨1, 0⟩ .kDefault false)) = none := by
  constructor
  · exact (alwaysFlop_addRegister_behavior (AlwaysFlop.create (scalarRef "clk") none)
      (scalarRef "q") (scalarRef "q_next") (scalarRef "q_next")).2.1
  · exact (alwaysFlop_addRegister_behavior (AlwaysFlop.create (scalarRef "clk") none)
      (scalarRef "q") (scalarRef "q_next")
      (.literal ⟨1, 0⟩ .kDefault false)).2.2.1 rfl

/-- Claim C8: once a Conditional holds an unconditional alternate, any
further AddAlternate aborts; and successful AddAlternate calls preserve the
invariant that only the last alternate may be unconditional. -/
theorem conditional_addAlternate_unconditional_last
    (c : Conditional) (cond : Option Expression) :
    (∀ blk, c.alternates.getLast? = some (none, blk) →
      c.AddAlternate cond = none)
    ∧ (∀ c', (∀ p ∈ c.alternates.dropLast, p.1.isSome = true) →
        c.AddAlternate cond = some c' →
        ∀ p ∈ c'.alternates.dropLast, p.1.isSome = true) := by
  constructor
  · intro blk h
    simp [Conditional.AddAlternate, h]
  · intro c' hall hsucc p hp
    unfold Conditional.AddAlternate at hsucc
    rcases hlast : c.alternates.getLast? with _ | ⟨oc, blk⟩
    · have hempty : c.alternates = [] := List.getLast?_eq_none_iff.mp hlast
      rw [hlast] at hsucc
      simp only [Option.some.injEq] at hsucc
      rw [← hsucc] at hp
      simp [hempty] at hp
    · rw [hlast] at hsucc
      rcases oc with _ | e
      · simp at hsucc
      · simp only [Option.some.injEq] at hsucc
        rw [← hsucc] at hp
        simp only [List.dropLast_concat] at hp
        have hdecomp := List.dropLast_append_getLast? (some e, blk) hlast
        rw [← hdecomp] at hp
        rcases List.mem_append.mp hp with hmem | hmem
        · exact hall p hmem
        · rcases List.mem_singleton.mp hmem with rfl
          rfl

/-- Witness for C8: after adding a conditional alternate and then an
unconditional one, a further AddAlternate aborts; the built chain keeps the
unconditional alternate last. -/
theorem conditional_addAlternate_unconditional_last_witness :
    ((Conditional.create (scalarRef "c")).AddAlternate
        (some (scalarRef "d")) |>.bind (fun c1 =>
      c1.AddAlternate none) |>.bind (fun c2 =>
      c2.AddAlternate (some (scalarRef "e")))) = none := by
  have h3 := (conditional_addAlternate_unconditional_last
    { condition := scalarRef "c", consequent := [],
      alternates := [(some (scalarRef "d"), []), (none, [])] }
    (some (scalarRef "e"))).1 [] rfl
  exact h3

/-- The dimension loop of FlatBitCountAsInt64 never aborts when the
dimension expressions emit, yields a success exactly when every dimension
is a literal, and then multiplies the running bit count by every
dimension's value. -/
lemma flatBitCountLoop_spec (dims : List Expression) (bc : Nat)
    (hd : ∀ d ∈ dims, (d.Emit).isSome = true) :
    (flatBitCountLoop dims bc).isSome = true
    ∧ ((∃ n, flatBitCountLoop dims bc = some (Except.ok n)) ↔
        ∀ d ∈ dims, d.IsLiteral = true)
    ∧ ((∀ d ∈ dims, d.IsLiteral = true) →
        flatBitCountLoop dims bc =
          some (Except.ok (bc * (dims.map Expression.AsLiteralToUint64).prod))) := by
  induction dims generalizing bc with
  | nil => simp [flatBitCountLoop]
  | cons d rest ih =>
    have hdrest : ∀ x ∈ rest, (x.Emit).isSome = true :=
      fun x hx => hd x (List.mem_cons_of_mem d hx)
    by_cases hlit : d.IsLiteral = true
    · have hloop : flatBitCountLoop (d :: rest) bc =
          flatBitCountLoop rest (bc * d.AsLiteralToUint64) := by
        simp [flatBitCountLoop, hlit]
      obtain ⟨h1, h2, h3⟩ := ih (bc * d.AsLiteralToUint64) hdrest
      refine ⟨by rw [hloop]; exact h1, ?_, ?_⟩
      · rw [hloop, h2]
        constructor
        · intro hall x hx
          rcases List.mem_cons.mp hx with rfl | hx2
          · exact hlit
          · exact hall x hx2
        · intro hall x hx
          exact hall x (List.mem_cons_of_mem d hx)
      · intro hall
        rw [hloop, h3 (fun x hx => hall x (List.mem_cons_of_mem d hx))]
        simp [Nat.mul_assoc]
    · have hsome := hd d (List.mem_cons_self d rest)
      obtain ⟨s, hs⟩ := Option.isSome_iff_exists.mp hsome
      have hloop : flatBitCountLoop (d :: rest) bc =
          some (Except.error ("Dimension is not a literal:" ++ s)) := by
        simp [flatBitCountLoop, hlit, hs]
      refine ⟨by rw [hloop]; rfl, ?_, ?_⟩
      · rw [hloop]
        constructor
        · rintro ⟨n, hn⟩
          simp at hn
        · intro hall
          exact absurd (hall d (List.mem_cons_self d rest)) hlit
      · intro hall
        exact absurd (hall d (List.mem_cons_self d rest)) hlit

/-- Claim C9: FlatBitCountAsInt64 (and through it Port::ToProto) returns a
typed failure, never an abort, exactly when the width or some packed
dimension is a non-literal expression; an absent width resolves to 1, and
with all-literal width and dimensions the flat bit count is the width
value multiplied by every dimension value. -/
theorem flatBitCount_typed_failure_iff_nonliteral (t : DataType)
    (hw : ∀ w, t.width = some w → (w.Emit).isSome = true)
    (hd : ∀ d ∈ t.packed_dims, (d.Emit).isSome = true) :
    (t.FlatBitCountAsInt64).isSome = true
    ∧ ((∃ e, t.FlatBitCountAsInt64 = some (Except.error e)) ↔
        ((∃ w, t.width = some w ∧ w.IsLiteral = false)
          ∨ (∃ d ∈ t.packed_dims, d.IsLiteral = false)))
    ∧ (t.width = none → t.WidthAsInt64 = some (Except.ok 1))
    ∧ ((∀ w, t.width = some w → w.IsLiteral = true) →
        (∀ d ∈ t.packed_dims, d.IsLiteral = true) →
        t.FlatBitCountAsInt64 = some (Except.ok
          ((match t.width with
            | none => 1
            | some w => w.AsLiteralToUint64) *
           (t.packed_dims.map Expression.AsLiteralToUint64).prod)))
    ∧ (∀ p : Port, p.wire.data_type = t →
        ((∃ e, p.ToProto = some (Except.error e)) ↔
          (∃ e, t.FlatBitCountAsInt64 = some (Except.error e)))) := by
  have hport : ∀ p : Port, p.wire.data_type = t →
      ((∃ e, p.ToProto = some (Except.error e)) ↔
        (∃ e, t.FlatBitCountAsInt64 = some (Except.error e))) := by
    intro p hp
    unfold Port.ToProto Def.FlatBitCountAsInt64
    rw [hp]
    rcases hfc : t.FlatBitCountAsInt64 with _ | ⟨e | n⟩ <;> simp
  have hboolne : ∀ x : Expression, x.IsLiteral ≠ false → x.IsLiteral = true := by
    intro x hx
    cases hcase : x.IsLiteral
    · exact absurd hcase hx
    · rfl
  rcases hwidth : t.width with _ | w
  all_goals rw [hwidth] at hw
  · -- no width: resolves to 1
    have hw1 : t.WidthAsInt64 = some (Except.ok 1) := by
      simp [DataType.WidthAsInt64, hwidth]
    have hfc : t.FlatBitCountAsInt64 = flatBitCountLoop t.packed_dims 1 := by
      simp [DataType.FlatBitCountAsInt64, hw1]
    obtain ⟨h1, h2, h3⟩ := flatBitCountLoop_spec t.packed_dims 1 hd
    refine ⟨?_, ?_, ?_, ?_, hport⟩
    · rw [hfc]
      exact h1
    · rw [hfc]
      constructor
      · rintro ⟨e, he⟩
        right
        by_contra hall
        push_neg at hall
        have hall2 : ∀ d ∈ t.packed_dims, d.IsLiteral = true :=
          fun d hdm => hboolne d (hall d hdm)
        obtain ⟨n, hn⟩ := h2.mpr hall2
        rw [he] at hn
        simp at hn
      · rintro (⟨w, hww, _⟩ | ⟨d, hdm, hdl⟩)
        · simp at hww
        · rcases hres : flatBitCountLoop t.packed_dims 1 with _ | ⟨e | n⟩
          · rw [hres] at h1
            simp at h1
          · exact ⟨e, rfl⟩
          · exfalso
            have hall := h2.mp ⟨n, hres⟩
            rw [hall d hdm] at hdl
            simp at hdl
    · intro _
      exact hw1
    · intro _ hall
      rw [hfc, h3 hall]
  · -- width present
    by_cases hwl : w.IsLiteral = true
    · have hw1 : t.WidthAsInt64 = some (Except.ok w.AsLiteralToUint64) := by
        simp [DataType.WidthAsInt64, hwidth, hwl]
      have hfc : t.FlatBitCountAsInt64 =
          flatBitCountLoop t.packed_dims w.AsLiteralToUint64 := by
        simp [DataType.FlatBitCountAsInt64, hw1]
      obtain ⟨h1, h2, h3⟩ := flatBitCountLoop_spec t.packed_dims w.AsLiteralToUint64 hd
      refine ⟨?_, ?_, ?_, ?_, hport⟩
      · rw [hfc]
        exact h1
      · rw [hfc]
        constructor
        · rintro ⟨e, he⟩
          right
          by_contra hall
          push_neg at hall
          have hall2 : ∀ d ∈ t.packed_dims, d.IsLiteral = true :=
            fun d hdm => hboolne d (hall d hdm)
          obtain ⟨n, hn⟩ := h2.mpr hall2
          rw [he] at hn
          simp at hn
        · rintro (⟨w2, hww, hwl2⟩ | ⟨d, hdm, hdl⟩)
          · injection hww with hww
            rw [← hww, hwl] at hwl2
            cases hwl2
          · rcases hres : flatBitCountLoop t.packed_dims w.AsLiteralToUint64
                with _ | ⟨e | n⟩
            · rw [hres] at h1
              simp at h1
            · exact ⟨e, rfl⟩
            · exfalso
              have hall := h2.mp ⟨n, hres⟩
              rw [hall d hdm] at hdl
              simp at hdl
      · intro h
        cases h
      · intro _ hall
        rw [hfc, h3 hall]
    · -- width not a literal: typed failure
      have hws := hw w rfl
      obtain ⟨s, hs⟩ := Option.isSome_iff_exists.mp hws
      have hw1 : t.WidthAsInt64 =
          some (Except.error ("Width is not a literal: " ++ s)) := by
        simp [DataType.WidthAsInt64, hwidth, hwl, hs]
      have hfc : t.FlatBitCountAsInt64 =
          some (Except.error ("Width is not a literal: " ++ s)) := by
        simp [DataType.FlatBitCountAsInt64, hw1]
      refine ⟨?_, ?_, ?_, ?_, hport⟩
      · rw [hfc]
        rfl
      · rw [hfc]
        constructor
        · intro _
          left
          refine ⟨w, rfl, ?_⟩
          cases hcase : w.IsLiteral
          · rfl
          · exact absurd hcase hwl
        · intro _
          exact ⟨"Width is not a literal: " ++ s, rfl⟩
      · intro h
        cases h
      · intro hall _
        exact absurd (hall w rfl) hwl

/-- Witness for C9: an 8-bit by [4][2] packed type flattens to 64 bits; a
type whose width is a wire reference fails with the typed error rather
than aborting. -/
theorem flatBitCount_typed_failure_iff_nonliteral_witness :
    (DataType.mk (some (.literal ⟨32, 8⟩ .kDefault false)) false
      [.literal ⟨32, 4⟩ .kDefault false,
       .literal ⟨32, 2⟩ .kDefault false]).FlatBitCountAsInt64 =
      some (Except.ok 64)
    ∧ (DataType.mk (some (scalarRef "w")) false []).FlatBitCountAsInt64 =
      some (Except.error "Width is not a literal: w") := by
  constructor
  · have h := (flatBitCount_typed_failure_iff_nonliteral
      (DataType.mk (some (.literal ⟨32, 8⟩ .kDefault false)) false
        [.literal ⟨32, 4⟩ .kDefault false, .literal ⟨32, 2⟩ .kDefault false])
      (by intro w hw; cases hw; rfl)
      (by intro d hd; fin_cases hd <;> rfl)).2.2.2.1
      (by intro w hw; cases hw; rfl)
      (by intro d hd; fin_cases hd <;> rfl)
    exact h
  · obtain ⟨e, he⟩ := (flatBitCount_typed_failure_iff_nonliteral
      (DataType.mk (some (scalarRef "w")) false [])
      (by intro w hw; cases hw; rfl)
      (by intro d hd; cases hd)).2.1.mpr
      (Or.inl ⟨scalarRef "w", rfl, rfl⟩)
    have h0 := he.symm.trans
      (show (DataType.mk (some (scalarRef "w")) false []).FlatBitCountAsInt64 =
        some (Except.error "Width is not a literal: w") from rfl)
    have heq : e = "Width is not a literal: w" := by
      simpa using h0
    rw [heq] at he
    exact he

/-- One unfolding step of the digit-extraction loop behind `Nat.toDigits`. -/
lemma toDigitsCore_succ (base fuel n : Nat) (acc : List Char) :
    Nat.toDigitsCore base (fuel + 1) n acc =
      if n / base = 0 then Nat.digitChar (n % base) :: acc
      else Nat.toDigitsCore base fuel (n / base) (Nat.digitChar (n % base) :: acc) :=
  rfl

/-- With enough fuel, a value below `base ^ k` produces at most `k` digits. -/
lemma toDigitsCore_length_le (base : Nat) (hb : 2 ≤ base) :
    ∀ (fuel k n : Nat) (acc : List Char), n < base ^ k → 1 ≤ k → k ≤ fuel →
      (Nat.toDigitsCore base fuel n acc).length ≤ k + acc.length := by
  intro fuel
  induction fuel with
  | zero =>
    intro k n acc _ _ _
    simp only [Nat.toDigitsCore]
    omega
  | succ fuel ih =>
    intro k n acc hn hk1 hkf
    rw [toDigitsCore_succ]
    split
    · simp only [List.length_cons]
      omega
    · rename_i h
      have hbpos : 0 < base := by omega
      have hn' : n / base < base ^ (k - 1) := by
        rw [Nat.div_lt_iff_lt_mul hbpos]
        calc n < base ^ k := hn
          _ = base ^ (k - 1) * base := by
              rw [← pow_succ]
              congr 1
              omega
      have hk2 : 2 ≤ k := by
        by_contra hlt
        have hke : k = 1 := by omega
        subst hke
        exact h (Nat.div_eq_of_lt (by simpa using hn))
      have hrec := ih (k - 1) (n / base) (Nat.digitChar (n % base) :: acc) hn'
        (by omega) (by omega)
      simp only [List.length_cons] at hrec
      omega

/-- A value below `base ^ k` has at most `k` digits. -/
lemma toDigits_length_le (base n k : Nat) (hb : 2 ≤ base) (hk : 1 ≤ k)
    (hn : n < base ^ k) : (Nat.toDigits base n).length ≤ k := by
  by_cases hcase : k ≤ n + 1
  · have := toDigitsCore_length_le base hb (n + 1) k n [] hn hk hcase
    simpa [Nat.toDigits] using this
  · have hn2 : n < base ^ (n + 1) := by
      calc n < 2 ^ (n + 1) := lt_of_lt_of_le (Nat.lt_two_pow n) (Nat.pow_le_pow_right
        (by omega) (by omega))
        _ ≤ base ^ (n + 1) := Nat.pow_le_pow_left hb (n + 1)
    have := toDigitsCore_length_le base hb (n + 1) (n + 1) n [] hn2 (by omega)
      (le_refl _)
    have hle : (Nat.toDigits base n).length ≤ n + 1 := by
      simpa [Nat.toDigits] using this
    omega

/-- The raw digit rendering is exactly `pad` characters long whenever the
value fits in `pad` digits. -/
lemma rawDigits_length (base pad value : Nat) (hb : 2 ≤ base) (hpad : 1 ≤ pad)
    (hv : value < base ^ pad) : (rawDigits base pad value).length = pad := by
  have hle := toDigits_length_le base value pad hb hpad hv
  simp only [rawDigits, String.length]
  simp only [List.length_append, List.length_replicate]
  omega

/-- Counterexample for C2: with the emit-bit-count flag false a binary
literal still carries the width and radix marker; the bare digits are not
what Emit produces. -/
theorem literal_binary_prefix_despite_flag_false :
    (Expression.literal ⟨4, 5⟩ .kBinary false).Emit = some "4\x27b0101"
    ∧ (Expression.literal ⟨4, 5⟩ .kBinary false).Emit ≠ some "0101"
    ∧ (Expression.literal ⟨4, 5⟩ .kHex false).Emit = some "4\x27h5" := by
  refine ⟨rfl, by decide, rfl⟩

/-- Claim C2 as amended: the decimal format carries the width-and-radix
marker exactly when the emit-bit-count flag is set, while binary and hex
always carry their marker regardless of the flag; binary and hex digits
are zero-padded to the full bit width (the full count of hex digits). -/
theorem literal_radix_format_rendering (b : Bits) (ebc : Bool)
    (hwf : b.value < 2 ^ b.bit_count) (hbc : 1 ≤ b.bit_count) :
    ((Expression.literal b .kDecimal ebc).Emit =
      some ((if ebc then toString b.bit_count ++ "\x27d" else "") ++ toString b.value))
    ∧ ((Expression.literal b .kBinary ebc).Emit =
      some (toString b.bit_count ++ "\x27b" ++ rawDigits 2 b.bit_count b.value))
    ∧ ((Expression.literal b .kHex ebc).Emit =
      some (toString b.bit_count ++ "\x27h" ++
        rawDigits 16 ((b.bit_count + 3) / 4) b.value))
    ∧ (rawDigits 2 b.bit_count b.value).length = b.bit_count
    ∧ (rawDigits 16 ((b.bit_count + 3) / 4) b.value).length =
        (b.bit_count + 3) / 4 := by
  refine ⟨rfl, rfl, rfl, ?_, ?_⟩
  · exact rawDigits_length 2 b.bit_count b.value (by omega) hbc hwf
  · have hv16 : b.value < 16 ^ ((b.bit_count + 3) / 4) := by
      calc b.value < 2 ^ b.bit_count := hwf
        _ ≤ 2 ^ (4 * ((b.bit_count + 3) / 4)) :=
            Nat.pow_le_pow_right (by omega) (by omega)
        _ = 16 ^ ((b.bit_count + 3) / 4) := by
            rw [pow_mul]
            norm_num
    exact rawDigits_length 16 ((b.bit_count + 3) / 4) b.value (by omega)
      (by omega) hv16

/-- Witness for C2: the four-bit value five renders as the fully padded
binary form with the marker present even though the flag is false. -/
theorem literal_radix_format_rendering_witness :
    (Expression.literal ⟨4, 5⟩ .kBinary false).Emit = some "4\x27b0101"
    ∧ (rawDigits 2 4 5).length = 4
    ∧ (Expression.literal ⟨4, 5⟩ .kDecimal false).Emit = some "5"
    ∧ (Expression.literal ⟨4, 5⟩ .kDecimal true).Emit = some "4\x27d5" := by
  have h := literal_radix_format_rendering ⟨4, 5⟩ false (by norm_num) (by norm_num)
  exact ⟨h.2.1, h.2.2.2.1, h.1, (literal_radix_format_rendering ⟨4, 5⟩ true
    (by norm_num) (by norm_num)).1⟩

end Vast
